import Mathlib

/-!
Verification of the TLangInterpreter repository (tiny-lang interpreter).

Source files modelled: `tli.py` (the most complete variant of the engine) and,
where a claim explicitly targets it, the older variant `til.py`.

Modelling conventions:
* Python strings are modelled as `List Char`.  All parsing and splitting
  utilities are translated char-for-char from the source.
* Python `float` numbers are modelled as exact rationals (`ℚ`).  None of the
  verified claims depends on rounding; the one numerical claim is about the
  division-by-zero branch, where Python raises `ZeroDivisionError` rather than
  producing a value, and that control-flow behaviour is modelled exactly.
* Python exceptions are modelled by the inductive `Exn` together with
  predicates reflecting the relevant parts of the Python class hierarchy
  (`TinyLangRuntimeError <: RuntimeError`, `TinyLangCompileError <: RuntimeError`,
  while `ZeroDivisionError`, `TypeError` and `EOFError` are *not*
  `RuntimeError`s).  Exception message strings are elided; the carried line
  number and the class are kept.
* Loops from the source (`resume`, the cursor loop of `quoted_split_first`,
  the recursive expression grammar) are modelled with explicit fuel so that
  every definition is executable by the kernel; in each case the fuel chosen
  at the wrapper provably suffices.
-/

namespace TLang

/-! ## Python string primitives -/

/-- Whitespace recognised by Python's `str.strip()` (ASCII part; the verified
claims only involve ASCII source text). -/
def pyIsSpace (c : Char) : Bool :=
  c = ' ' || c = '\t' || c = '\n' || c = '\r' || c = '\x0b' || c = '\x0c'

/-- Python `str.strip()`: remove leading and trailing whitespace. -/
def pyStrip (s : List Char) : List Char :=
  ((s.dropWhile pyIsSpace).reverse.dropWhile pyIsSpace).reverse

/-- Python `str.strip(c)` for a single strip character: remove all leading and
trailing occurrences of `c`. -/
def pyStripChar (c : Char) (s : List Char) : List Char :=
  ((s.dropWhile (· = c)).reverse.dropWhile (· = c)).reverse

/-- Auxiliary scan of Python `str.find(sub, start)`: first position `≥ i` at
which `sub` occurs in the remaining text `l`, where `i` is the absolute index
of the head of `l`. -/
def findSubFrom (sub : List Char) : List Char → Nat → Option Nat
  | [], i => if sub.isEmpty then some i else none
  | c :: rest, i =>
    if sub.isPrefixOf (c :: rest) then some i else findSubFrom sub rest (i + 1)

/-- Python `str.find(sub, start)` (returning `none` instead of `-1`). -/
def strFind (s sub : List Char) (start : Nat) : Option Nat :=
  findSubFrom sub (s.drop start) start

/-- `sub` occurs in `s` at position `p`. -/
def occursAt (s sub : List Char) (p : Nat) : Bool :=
  sub.isPrefixOf (s.drop p)

/-! ## `quoted_split_first` (tli.py, lines 731-778)

The source scans with a cursor:  find the next quote and the next separator
from the cursor; no separator ⇒ not found; no quote, or separator strictly
before the quote ⇒ that separator; otherwise skip past the closing quote of
the quoted span (an unclosed quote ⇒ not found) and repeat.  The cursor
strictly increases, so `s.length + 1` rounds of fuel always suffice. -/

def qsfLoop (s sep : List Char) (q : Char) : Nat → Nat → Option Nat
  | 0, _ => none
  | fuel + 1, cursor =>
    match strFind s sep cursor, strFind s [q] cursor with
    | none, _ => none
    | some p, none => some p
    | some p, some qp =>
      if p < qp then some p
      else
        match strFind s [q] (qp + 1) with
        | none => none
        | some cq => qsfLoop s sep q fuel (cq + 1)

/-- `quoted_split_first(string, sep, quote)` from tli.py: split at the first
separator occurrence outside quotes, or return `(none, string)`. -/
def quoted_split_first (s sep : List Char) (q : Char) :
    Option (List Char) × List Char :=
  match qsfLoop s sep q (s.length + 1) 0 with
  | some p => (some (s.take p), s.drop (p + sep.length))
  | none => (none, s)

/-! ## The spec's description of `splitFirst`

Modelled from the spec: "returns the text before/after the first occurrence of
`separator` that lies outside any quoted span.  A quoted span opens at a
`quoteChar` and closes at the next `quoteChar`; separators inside an open span
are ignored.  If a quote is opened and never closed, no separator after that
opening position counts, and if no qualifying separator exists anywhere,
returns `(None, text)` unchanged."  The scan walks the text left to right
toggling an in-quote flag at each quote character and reports the first
separator occurrence found while outside a quote. -/

def scanPos (sep : List Char) (q : Char) : List Char → Nat → Bool → Option Nat
  | [], _, _ => none
  | c :: rest, i, inQ =>
    if c = q then scanPos sep q rest (i + 1) (!inQ)
    else if inQ then scanPos sep q rest (i + 1) inQ
    else if sep.isPrefixOf (c :: rest) then some i
    else scanPos sep q rest (i + 1) inQ

/-- Modelled from the spec: `splitFirst` described via the quoted-span scan. -/
def splitFirstSpec (s sep : List Char) (q : Char) :
    Option (List Char) × List Char :=
  match scanPos sep q s 0 false with
  | some p => (some (s.take p), s.drop (p + sep.length))
  | none => (none, s)

/-! ## `quoted_split` (tli.py, lines 781-823)

Split on the quote character first; the slice before the first quote and every
even-indexed later slice are unquoted and get split on the separator, quoted
slices are reattached (with their quote characters) to the segment in
progress.  `closed` is false iff the number of quote characters is odd. -/

/-- Python `str.split(sep)` for a non-empty separator (fuelled scan; each step
removes at least one character, so `length + 1` rounds suffice). -/
def splitSeqLoop (sep : List Char) : Nat → List Char → List (List Char)
  | 0, s => [s]
  | fuel + 1, s =>
    match strFind s sep 0 with
    | none => [s]
    | some p => s.take p :: splitSeqLoop sep fuel (s.drop (p + sep.length))

def splitSeq (sep s : List Char) : List (List Char) :=
  splitSeqLoop sep (s.length + 1) s

/-- Python `segments[-1] += x`. -/
def appendLast : List (List Char) → List Char → List (List Char)
  | [], x => [x]
  | [a], x => [a ++ x]
  | a :: rest, x => a :: appendLast rest x

/-- The loop of `quoted_split`: `quoted` holds the flag assigned by the
previous iteration (`False` before the loop); each slice flips it (Python:
`quoted = i % 2 == 0`). -/
def quotedSplitFold (sep : List Char) (q : Char) :
    List (List Char) → Bool → List (List Char) → List (List Char) × Bool
  | segments, quoted, [] => (segments, !quoted)
  | segments, quoted, qseg :: more =>
    let nowQuoted := !quoted
    if nowQuoted then
      quotedSplitFold sep q (appendLast segments (q :: qseg)) nowQuoted more
    else
      match splitSeq sep qseg with
      | [] => quotedSplitFold sep q segments nowQuoted more
      | s0 :: srest =>
        quotedSplitFold sep q (appendLast segments (q :: s0) ++ srest) nowQuoted more

/-- `quoted_split(string, sep, quote)` from tli.py. -/
def quoted_split (s sep : List Char) (q : Char) : List (List Char) × Bool :=
  match splitSeq [q] s with
  | [] => ([], true)  -- unreachable: `str.split` always yields at least one slice
  | first :: more => quotedSplitFold sep q (splitSeq sep first) false more

/-! ## `check_name_legal` (tli.py, lines 826-863) -/

/-- The punctuation set rejected by `check_name_legal`. -/
def punctuationChars : List Char := ",.:;'\"!@#$%^&?|\\~`".toList

/-- The operator symbols rejected by `check_name_legal`. -/
def nameOperatorChars : List Char := "+-*/<=>".toList

/-! ## Exceptions

The Python class hierarchy that matters here:
`TinyLangRuntimeError <: RuntimeError` with subclasses `UnknownRuntimeError`,
`UndefinedVariableError`, `IllegalGotoLabelError`, `IllegalInputError`;
`TinyLangCompileError <: RuntimeError` with subclasses `TinyLangSyntaxError`,
`UnknownCompileError`; and the built-ins `ZeroDivisionError`, `TypeError` and
`EOFError`, none of which is a `RuntimeError`.  Message strings and wrapped
inner exceptions are elided; class and line number are kept. -/

inductive Exn where
  | undefinedVariable (line : Nat) (name : List Char)
  | illegalGotoLabel (line : Nat) (label : List Char)
  | illegalInput (line : Nat)
  | unknownRuntimeError (line : Nat)
  | syntaxError (line : Nat)
  | unknownCompileError (line : Nat)
  | zeroDivisionError
  | typeError
  | eofError
deriving DecidableEq, Repr

/-- Membership in the Python class `TinyLangRuntimeError`. -/
def Exn.isTinyLangRuntimeError : Exn → Bool
  | .undefinedVariable .. | .illegalGotoLabel .. | .illegalInput ..
  | .unknownRuntimeError .. => true
  | _ => false

/-- Membership in the Python class `RuntimeError` (all TinyLang errors are
`RuntimeError`s; the built-ins modelled here are not). -/
def Exn.isRuntimeError : Exn → Bool
  | .zeroDivisionError | .typeError | .eofError => false
  | _ => true

/-- Is this exception an `UnknownRuntimeError`? -/
def Exn.isUnknownRuntime : Exn → Bool
  | .unknownRuntimeError _ => true
  | _ => false

/-- `check_name_legal(line, name)` from tli.py: strip, then reject empty
names, digit-initial names, and names containing whitespace, punctuation or
operator characters; return the stripped name. -/
def check_name_legal (line : Nat) (name : List Char) : Except Exn (List Char) :=
  match pyStrip name with
  | [] => .error (.syntaxError line)
  | c :: rest =>
    if c.isDigit then .error (.syntaxError line)
    else if (c :: rest).any (fun ch => ch = ' ' || ch = '\t') then
      .error (.syntaxError line)
    else if (c :: rest).any (fun ch => punctuationChars.contains ch) then
      .error (.syntaxError line)
    else if (c :: rest).any (fun ch => nameOperatorChars.contains ch) then
      .error (.syntaxError line)
    else .ok (c :: rest)

/-! ## Operators (tli.py, lines 583-593 and 606-646) -/

inductive Operator where
  | PL | MI | MU | DI | LT | LE | GT | GE | EQ | NE
deriving DecidableEq, Repr

/-- The textual symbol of each operator (first component of the enum value). -/
def Operator.symbol : Operator → List Char
  | .PL => ['+']
  | .MI => ['-']
  | .MU => ['*']
  | .DI => ['/']
  | .LT => ['<']
  | .LE => ['<', '=']
  | .GT => ['>']
  | .GE => ['>', '=']
  | .EQ => ['=', '=']
  | .NE => ['!', '=']

/-- The declaration order of the `Operator` enum. -/
def operatorEnumOrder : List Operator :=
  [.PL, .MI, .MU, .DI, .LT, .LE, .GT, .GE, .EQ, .NE]

/-- Stable insert for a descending sort by symbol length: the new element goes
after every element whose symbol is at least as long. -/
def insertByLenDesc (op : Operator) : List Operator → List Operator
  | [] => [op]
  | o :: rest =>
    if op.symbol.length ≤ o.symbol.length then o :: insertByLenDesc op rest
    else op :: o :: rest

/-- `sorted(Operator, key=len(symbol), reverse=True)` from
`OperatorExpression.parse`: Python's sort is stable, so operators with longer
symbols come first and ties keep the enum order. -/
def sortedOperators : List Operator :=
  operatorEnumOrder.foldl (fun acc op => insertByLenDesc op acc) []

/-- The operator-selection loop of `OperatorExpression.parse`: take the first
candidate (in the given order) that occurs anywhere, at its first occurrence. -/
def findOperatorIn : List Operator → List Char → Option (Operator × Nat)
  | [], _ => none
  | op :: rest, s =>
    match strFind s op.symbol 0 with
    | some p => some (op, p)
    | none => findOperatorIn rest s

/-- Operator selection of `OperatorExpression.parse` (tli.py): scan
`sortedOperators` in order, select the first candidate that occurs. -/
def findOperator (s : List Char) : Option (Operator × Nat) :=
  findOperatorIn sortedOperators s

/-! ## Python `float(string)` (used by `ValueExpression.parse` and
`InputStatement.exec`)

Modelled from Python's documented grammar for `float`:  optional surrounding
whitespace, an optional sign, then either a case-insensitive
`inf`/`infinity`/`nan` or `[digitpart] "." digitpart | digitpart ["."]`
followed by an optional exponent `("e"|"E") [sign] digitpart`, where
`digitpart = digit (["_"] digit)*`.  Finite values are converted exactly to a
rational; `inf`/`infinity`/`nan` spellings are accepted but carry no rational
value (`nonfinite`) — no verified claim observes such a value. -/

inductive PyFloatVal where
  | finite (q : ℚ)
  | nonfinite
deriving DecidableEq, Repr

/-- Consume `(["_"] digit | digit)*`, returning the digits and the rest. -/
def takeDigitsU : List Char → List Char × List Char
  | '_' :: c :: rest =>
    if c.isDigit then
      let (ds, r) := takeDigitsU rest
      (c :: ds, r)
    else ([], '_' :: c :: rest)
  | c :: rest =>
    if c.isDigit then
      let (ds, r) := takeDigitsU rest
      (c :: ds, r)
    else ([], c :: rest)
  | [] => ([], [])

/-- Consume a `digitpart` (at least one digit), returning digits and rest. -/
def takeDigitpart : List Char → Option (List Char × List Char)
  | c :: rest =>
    if c.isDigit then
      let (ds, r) := takeDigitsU rest
      some (c :: ds, r)
    else none
  | [] => none

def digitsToNat (ds : List Char) : Nat :=
  ds.foldl (fun a c => a * 10 + (c.toNat - '0'.toNat)) 0

/-- Case-insensitive comparison against a lowercase reference word. -/
def lowerIs (s t : List Char) : Bool :=
  s.map Char.toLower = t

/-- `float(s)`: `none` when Python raises `ValueError`, otherwise the parsed
value. -/
def pyFloatParse (s0 : List Char) : Option PyFloatVal :=
  let s := pyStrip s0
  let (neg, s1) : Bool × List Char :=
    match s with
    | '+' :: r => (false, r)
    | '-' :: r => (true, r)
    | r => (false, r)
  if lowerIs s1 "inf".toList || lowerIs s1 "infinity".toList ||
      lowerIs s1 "nan".toList then
    some .nonfinite
  else
    let core : Option (ℚ × List Char) :=
      match takeDigitpart s1 with
      | some (ds, r) =>
        match r with
        | '.' :: r2 =>
          match takeDigitpart r2 with
          | some (fs, r3) =>
            some ((digitsToNat ds : ℚ) + (digitsToNat fs : ℚ) / 10 ^ fs.length, r3)
          | none => some ((digitsToNat ds : ℚ), r2)
        | _ => some ((digitsToNat ds : ℚ), r)
      | none =>
        match s1 with
        | '.' :: r2 =>
          match takeDigitpart r2 with
          | some (fs, r3) =>
            some ((digitsToNat fs : ℚ) / 10 ^ fs.length, r3)
          | none => none
        | _ => none
    match core with
    | none => none
    | some (q, r) =>
      let withExp : Option ℚ :=
        match r with
        | e :: r4 =>
          if e = 'e' || e = 'E' then
            let (eneg, r5) : Bool × List Char :=
              match r4 with
              | '+' :: r6 => (false, r6)
              | '-' :: r6 => (true, r6)
              | r6 => (false, r6)
            match takeDigitpart r5 with
            | some (eds, r7) =>
              if r7 = [] then
                some (if eneg then q / 10 ^ digitsToNat eds
                      else q * 10 ^ digitsToNat eds)
              else none
            | none => none
          else none
        | [] => some q
      match withExp with
      | none => none
      | some v => some (.finite (if neg then -v else v))

/-- Does `float(s)` succeed? -/
def pyFloatAccepts (s : List Char) : Bool :=
  (pyFloatParse s).isSome

/-! ## Parse-level syntax trees

Parsed expressions and statements as produced by the `parse` methods.  A
number literal records the accepted source text; the source stores
`float(string)`, whose conversion is `pyFloatParse` — the verified parsing
claims concern acceptance and shape, not the converted value. -/

inductive PExpr where
  | textLit (value : List Char)
  | numLit (raw : List Char)
  | ref (name : List Char)
  | binop (op : Operator) (e₁ e₂ : PExpr)
deriving Repr

inductive PStatement where
  | letS (name : List Char) (e : PExpr)
  | ifS (cond : PExpr) (target : List Char)
  | inputS (name : List Char)
  | printS (exprs : List PExpr)
deriving Repr

/-- The quote character of the language. -/
def quoteCh : Char := '\"'

/-- `ValueExpression.parse` (tli.py, lines 483-509): strip; text starting and
ending with `"` becomes a Text constant with all framing quotes stripped;
otherwise the text is accepted as a Number iff Python `float` accepts it. -/
def ValueExpression_parse (line : Nat) (s : List Char) : Except Exn PExpr :=
  let t := pyStrip s
  if t.head? = some quoteCh ∧ t.getLast? = some quoteCh then
    .ok (.textLit (pyStripChar quoteCh t))
  else if pyFloatAccepts t then .ok (.numLit t)
  else .error (.syntaxError line)

/-- Python `string.replace('.', '', 1)`: drop the first `'.'`, if any. -/
def removeFirstDot : List Char → List Char
  | [] => []
  | c :: rest => if c = '.' then rest else c :: removeFirstDot rest

/-- `ValueExpresion.parse` from the older variant til.py (lines 319-328): the
Number test is `string.replace('.', '', 1).isdigit()` instead of `float`.
(Python's `str.isdigit` also admits non-ASCII digit code points; this model
covers ASCII source text.) -/
def til_ValueExpresion_parse (line : Nat) (s : List Char) : Except Exn PExpr :=
  let t := pyStrip s
  if t.head? = some quoteCh ∧ t.getLast? = some quoteCh then
    .ok (.textLit (pyStripChar quoteCh t))
  else if !(removeFirstDot t).isEmpty ∧ (removeFirstDot t).all Char.isDigit then
    .ok (.numLit t)
  else .error (.syntaxError line)

/-- `ReferenceExpression.parse` (tli.py, lines 531-544). -/
def ReferenceExpression_parse (line : Nat) (s : List Char) : Except Exn PExpr := do
  let name ← check_name_legal line s
  return .ref name

/-- `Expression.parse` (tli.py, lines 433-457) together with
`OperatorExpression.parse` (lines 606-646).  `Expression.parse` tries value,
operator and reference parsing in that order, each failure (a
`TinyLangSyntaxError`) falling through to the next.  `OperatorExpression.parse`
selects an operator via `findOperator` and recursively parses the substrings
on both sides; the recursion is on strictly shorter strings, so fuel
`s.length + 1` always suffices (fuel 0 is unreachable from the wrapper). -/
def parseExpressionF : Nat → Nat → List Char → Except Exn PExpr
  | 0, line, _ => .error (.syntaxError line)
  | fuel + 1, line, s =>
    match ValueExpression_parse line s with
    | .ok e => .ok e
    | .error _ =>
      match findOperator s with
      | some (op, pos) =>
        match parseExpressionF fuel line (s.take pos),
            parseExpressionF fuel line (s.drop (pos + op.symbol.length)) with
        | .ok e₁, .ok e₂ => .ok (.binop op e₁ e₂)
        | _, _ => ReferenceExpression_parse line s
      | none => ReferenceExpression_parse line s

/-- `Expression.parse` (tli.py). -/
def Expression_parse (line : Nat) (s : List Char) : Except Exn PExpr :=
  parseExpressionF (s.length + 1) line s

/-- `LetStatement.parse` (tli.py, lines 232-257). -/
def LetStatement_parse (line : Nat) (s : List Char) : Except Exn PStatement :=
  match quoted_split_first s ['='] quoteCh with
  | (none, _) => .error (.syntaxError line)
  | (some name, expression) =>
    match pyStrip name with
    | [] => .error (.syntaxError line)
    | n => do
      let n' ← check_name_legal line n
      match pyStrip expression with
      | [] => .error (.syntaxError line)
      | e => do
        let e' ← Expression_parse line e
        return .letS n' e'

/-- `IfStatement.parse` (tli.py, lines 282-304): split on the first unquoted
`goto`; the condition is parsed as an expression, the target is the trimmed
remainder (non-empty, but not name-validated). -/
def IfStatement_parse (line : Nat) (s : List Char) : Except Exn PStatement :=
  match quoted_split_first s ("goto".toList) quoteCh with
  | (none, _) => .error (.syntaxError line)
  | (some expression, target) => do
    let cond ← Expression_parse line (pyStrip expression)
    match pyStrip target with
    | [] => .error (.syntaxError line)
    | t => return .ifS cond t

/-- `InputStatement.parse` (tli.py, lines 330-346). -/
def InputStatement_parse (line : Nat) (s : List Char) : Except Exn PStatement :=
  match pyStrip s with
  | [] => .error (.syntaxError line)
  | n => do
    let n' ← check_name_legal line n
    return .inputS n'

/-- `PrintStatement.parse` (tli.py, lines 374-401): empty text is an empty
print; otherwise the text is comma-split quote-aware, the quote must be
closed, and every segment must be a non-empty expression. -/
def PrintStatement_parse (line : Nat) (s : List Char) : Except Exn PStatement :=
  match pyStrip s with
  | [] => .ok (.printS [])
  | t =>
    let (segments, closed) := quoted_split t [','] quoteCh
    if !closed then .error (.syntaxError line)
    else do
      let exprs ← segments.mapM fun seg =>
        match pyStrip seg with
        | [] => .error (.syntaxError line)
        | seg' => Expression_parse line seg'
      return .printS exprs

/-- `Statement.parse` (tli.py, lines 178-204): the keyword is the text before
the first unquoted space (or the whole text if there is none); dispatch on
`let`/`if`/`input`/`print`. -/
def Statement_parse (line : Nat) (s : List Char) : Except Exn PStatement :=
  let (keyword, content) : List Char × List Char :=
    match quoted_split_first s [' '] quoteCh with
    | (none, _) => (s, [])
    | (some k, c) => (k, c)
  if keyword = "let".toList then LetStatement_parse line content
  else if keyword = "if".toList then IfStatement_parse line content
  else if keyword = "input".toList then InputStatement_parse line content
  else if keyword = "print".toList then PrintStatement_parse line content
  else .error (.syntaxError line)

/-- `TinyLangInterpreter.parse_one_line_string` (tli.py, lines 86-110): split
on the first unquoted `:`; when a label part is present it is validated by
`check_name_legal` (even when blank); the remainder, if non-empty after
trimming, is parsed as a statement. -/
def parse_one_line_string (line : Nat) (s : List Char) :
    Except Exn (Option (List Char) × Option PStatement) := do
  let (label, statement) := quoted_split_first s [':'] quoteCh
  let label' ← match label with
    | none => pure (none : Option (List Char))
    | some lab => do pure (some (← check_name_legal line lab))
  match pyStrip statement with
  | [] => return (label', none)
  | t => do
    let stmt ← Statement_parse line t
    return (label', some stmt)

/-! ## Runtime values and expressions

Runtime numbers are exact rationals (see the header note); text values are
character lists.  Expressions carry constants directly, as the
`ValueExpression` objects do after parsing. -/

inductive Value where
  | num (q : ℚ)
  | text (s : List Char)
deriving DecidableEq, Repr

/-- Python string comparison (`<` on `str`): lexicographic by code point. -/
def textLt : List Char → List Char → Bool
  | [], [] => false
  | [], _ :: _ => true
  | _ :: _, [] => false
  | a :: as, b :: bs => if a = b then textLt as bs else decide (a.toNat < b.toNat)

/-- `float(bool)`: `1.0` for true and `0.0` for false. -/
def boolToNum (b : Bool) : Value :=
  .num (if b then 1 else 0)

/-- The operator functions of the `Operator` enum, with Python's semantics on
the two value kinds: arithmetic needs numbers (`+` also concatenates two
texts); mixed operands raise `TypeError`, except `==`/`!=` which compare
unequal without error; `/` by zero raises `ZeroDivisionError`. -/
def applyOp : Operator → Value → Value → Except Exn Value
  | .PL, .num a, .num b => .ok (.num (a + b))
  | .PL, .text a, .text b => .ok (.text (a ++ b))
  | .PL, _, _ => .error .typeError
  | .MI, .num a, .num b => .ok (.num (a - b))
  | .MI, _, _ => .error .typeError
  | .MU, .num a, .num b => .ok (.num (a * b))
  | .MU, _, _ => .error .typeError
  | .DI, .num a, .num b =>
    if b = 0 then .error .zeroDivisionError else .ok (.num (a / b))
  | .DI, _, _ => .error .typeError
  | .LT, .num a, .num b => .ok (boolToNum (decide (a < b)))
  | .LT, .text a, .text b => .ok (boolToNum (textLt a b))
  | .LT, _, _ => .error .typeError
  | .LE, .num a, .num b => .ok (boolToNum (decide (a ≤ b)))
  | .LE, .text a, .text b => .ok (boolToNum (!textLt b a))
  | .LE, _, _ => .error .typeError
  | .GT, .num a, .num b => .ok (boolToNum (decide (b < a)))
  | .GT, .text a, .text b => .ok (boolToNum (textLt b a))
  | .GT, _, _ => .error .typeError
  | .GE, .num a, .num b => .ok (boolToNum (decide (b ≤ a)))
  | .GE, .text a, .text b => .ok (boolToNum (!textLt a b))
  | .GE, _, _ => .error .typeError
  | .EQ, .num a, .num b => .ok (boolToNum (decide (a = b)))
  | .EQ, .text a, .text b => .ok (boolToNum (decide (a = b)))
  | .EQ, _, _ => .ok (boolToNum false)
  | .NE, .num a, .num b => .ok (boolToNum (decide (a ≠ b)))
  | .NE, .text a, .text b => .ok (boolToNum (decide (a ≠ b)))
  | .NE, _, _ => .ok (boolToNum true)

/-- Runtime expression trees (tli.py `Expression` subclasses). -/
inductive Expr where
  | lit (v : Value)
  | ref (name : List Char)
  | binop (op : Operator) (e₁ e₂ : Expr)
deriving Repr

/-- The variable context: Python `dict` modelled as an association list with
in-place update. -/
def ctxGet : List (List Char × Value) → List Char → Option Value
  | [], _ => none
  | (k, v) :: rest, name => if k = name then some v else ctxGet rest name

def ctxSet : List (List Char × Value) → List Char → Value → List (List Char × Value)
  | [], name, v => [(name, v)]
  | (k, w) :: rest, name, v =>
    if k = name then (k, v) :: rest else (k, w) :: ctxSet rest name v

def labelGet : List (List Char × Nat) → List Char → Option Nat
  | [], _ => none
  | (k, v) :: rest, name => if k = name then some v else labelGet rest name

/-- `Expression.eval` (tli.py): constants return themselves; references look
the name up, raising `UndefinedVariable` when absent; operator expressions
evaluate the left operand, then the right, then apply the operator. -/
def Expr.eval : Expr → Nat → List (List Char × Value) → Except Exn Value
  | .lit v, _, _ => .ok v
  | .ref name, line, ctx =>
    match ctxGet ctx name with
    | some v => .ok v
    | none => .error (.undefinedVariable line name)
  | .binop op e₁ e₂, line, ctx => do
    let x ← e₁.eval line ctx
    let y ← e₂.eval line ctx
    applyOp op x y

/-! ## Statements and the interpreter state -/

inductive Stmt where
  | letS (name : List Char) (e : Expr)
  | ifS (cond : Expr) (target : List Char)
  | inputS (name : List Char)
  | printS (exprs : List Expr)
deriving Repr

/-- One item sent to the output collaborator (`interpreter.print`): a value,
the separating space, or the trailing newline.  The textual rendering of
values (Python `str`) is elided; no verified claim concerns it. -/
inductive OutItem where
  | val (v : Value)
  | sep
  | newline
deriving Repr

/-- `TinyLangInterpreter` state: statement table, label table, context and
cursor, plus the input stream and output log of the injected collaborators.
The cursor is a natural number: it starts at 0 and every assignment to it in
the source stores 0, a successor, or a stored label line, so it never goes
negative. -/
structure Interp where
  statements : List (Option Stmt)
  labels : List (List Char × Nat)
  context : List (List Char × Value)
  next_line : Nat
  stdin : List (List Char)
  stdout : List OutItem
deriving Repr

/-- Python `v != 0` on a runtime value: a number is compared numerically, a
text compares unequal to `0` without error. -/
def valueNeZero : Value → Bool
  | .num q => decide (q ≠ 0)
  | .text _ => true

/-- The loop of `PrintStatement.exec` over the expressions after the first:
print the separating space, then evaluate (so a failing operand leaves the
space already printed) and print the value. -/
def execPrintList (line : Nat) : List Expr → Interp → Except (Exn × Interp) Interp
  | [], st => .ok st
  | e :: rest, st =>
    match e.eval line st.context with
    | .error ex => .error (ex, { st with stdout := st.stdout ++ [.sep] })
    | .ok v =>
      execPrintList line rest { st with stdout := st.stdout ++ [.sep, .val v] }

/-- `Statement.exec` of each statement class (tli.py).  The error component
carries the interpreter state as it stood when the exception was raised, so
partial effects (a consumed input line, partial output) persist as in
Python. -/
def Stmt.exec : Stmt → Nat → Interp → Except (Exn × Interp) Interp
  | .letS name e, line, st =>
    -- LetStatement.exec: evaluate, then write the context.
    match e.eval line st.context with
    | .error ex => .error (ex, st)
    | .ok v => .ok { st with context := ctxSet st.context name v }
  | .ifS cond target, line, st =>
    -- IfStatement.exec: on a non-zero condition, look the label up and
    -- overwrite the cursor; an unknown label raises IllegalGotoLabel.
    match cond.eval line st.context with
    | .error ex => .error (ex, st)
    | .ok v =>
      if valueNeZero v then
        match labelGet st.labels target with
        | none => .error (.illegalGotoLabel line target, st)
        | some t => .ok { st with next_line := t }
      else .ok st
  | .inputS name, line, st =>
    -- InputStatement.exec: one blocking read (EOFError when the stream is
    -- exhausted), float conversion (IllegalInput on failure), then the write.
    match st.stdin with
    | [] => .error (.eofError, st)
    | x :: rest =>
      let st1 := { st with stdin := rest }
      match pyFloatParse x with
      | none => .error (.illegalInput line, st1)
      | some r =>
        let q : ℚ := match r with | .finite q => q | .nonfinite => 0
        .ok { st1 with context := ctxSet st1.context name (.num q) }
  | .printS exprs, line, st =>
    -- PrintStatement.exec: first value, then space-value pairs, then newline.
    match exprs with
    | [] => .ok { st with stdout := st.stdout ++ [.newline] }
    | e :: rest =>
      match e.eval line st.context with
      | .error ex => .error (ex, st)
      | .ok v =>
        match execPrintList line rest { st with stdout := st.stdout ++ [.val v] } with
        | .error err => .error err
        | .ok st2 => .ok { st2 with stdout := st2.stdout ++ [.newline] }

/-- The `try`/`except` around `statement.exec` in `resume` (tli.py, lines
79-84): a `TinyLangRuntimeError` is re-raised as is; any other `RuntimeError`
is wrapped — as `UnknownCompileError(this_line, e)` in the source; exceptions
outside `RuntimeError` propagate unchanged. -/
def execCaught (stmt : Stmt) (line : Nat) (st : Interp) : Except (Exn × Interp) Interp :=
  match stmt.exec line st with
  | .ok st2 => .ok st2
  | .error (e, stE) =>
    if e.isTinyLangRuntimeError then .error (e, stE)
    else if e.isRuntimeError then .error (.unknownCompileError line, stE)
    else .error (e, stE)

/-- `TinyLangInterpreter.resume` (tli.py, lines 74-84), fuelled: while the
cursor is in range, remember the cursor, advance it by one, and execute the
statement at the remembered line if present.  The result is the raised
exception (`none` when the engine pauses) together with the final interpreter
state.  Exhausted fuel reports a pause — every claim about the loop is stated
with the fuel needed. -/
def resume : Nat → Interp → Option Exn × Interp
  | 0, st => (none, st)
  | fuel + 1, st =>
    if h : st.next_line < st.statements.length then
      match st.statements.get ⟨st.next_line, h⟩ with
      | none => resume fuel { st with next_line := st.next_line + 1 }
      | some stmt =>
        match execCaught stmt st.next_line { st with next_line := st.next_line + 1 } with
        | .ok st2 => resume fuel st2
        | .error (e, stE) => (some e, stE)
    else (none, st)

/-! ## Basic facts about statement execution -/

theorem execPrintList_ok_next_line {line : Nat} {es : List Expr} {st st2 : Interp}
    (h : execPrintList line es st = .ok st2) : st2.next_line = st.next_line := by
  induction es generalizing st with
  | nil =>
    simp only [execPrintList, Except.ok.injEq] at h
    rw [← h]
  | cons e rest ih =>
    simp only [execPrintList] at h
    split at h
    · exact absurd h (by simp)
    · have hh := ih h
      exact hh

theorem execPrintList_error_next_line {line : Nat} {es : List Expr} {st stE : Interp}
    {ex : Exn} (h : execPrintList line es st = .error (ex, stE)) :
    stE.next_line = st.next_line := by
  induction es generalizing st with
  | nil => simp [execPrintList] at h
  | cons e rest ih =>
    simp only [execPrintList] at h
    split at h
    · simp only [Except.error.injEq, Prod.mk.injEq] at h
      rw [← h.2]
    · have hh := ih h
      exact hh

/-- Raising inside `Statement.exec` never moves the cursor: in every class the
assignment to `next_line` (only in `IfStatement.exec`) happens after all the
points that can raise. -/
theorem exec_error_next_line {stmt : Stmt} {line : Nat} {st stE : Interp} {ex : Exn}
    (h : stmt.exec line st = .error (ex, stE)) : stE.next_line = st.next_line := by
  cases stmt with
  | letS name e =>
    simp only [Stmt.exec] at h
    split at h
    · simp only [Except.error.injEq, Prod.mk.injEq] at h
      rw [← h.2]
    · exact absurd h (by simp)
  | ifS cond target =>
    simp only [Stmt.exec] at h
    split at h
    · simp only [Except.error.injEq, Prod.mk.injEq] at h
      rw [← h.2]
    · split at h
      · split at h
        · simp only [Except.error.injEq, Prod.mk.injEq] at h
          rw [← h.2]
        · exact absurd h (by simp)
      · exact absurd h (by simp)
  | inputS name =>
    simp only [Stmt.exec] at h
    split at h
    · simp only [Except.error.injEq, Prod.mk.injEq] at h
      rw [← h.2]
    · split at h
      · simp only [Except.error.injEq, Prod.mk.injEq] at h
        rw [← h.2]
      · exact absurd h (by simp)
  | printS exprs =>
    simp only [Stmt.exec] at h
    split at h
    · exact absurd h (by simp)
    · rename_i e rest
      split at h
      · simp only [Except.error.injEq, Prod.mk.injEq] at h
        rw [← h.2]
      · split at h
        · rename_i st' err hp
          simp only [Except.error.injEq] at h
          subst h
          have hh := execPrintList_error_next_line hp
          exact hh
        · exact absurd h (by simp)

/-- A successful execution of any statement other than a conditional goto
leaves the cursor as it was. -/
theorem exec_ok_next_line {stmt : Stmt} {line : Nat} {st st2 : Interp}
    (hni : ∀ cond target, stmt ≠ .ifS cond target)
    (h : stmt.exec line st = .ok st2) : st2.next_line = st.next_line := by
  cases stmt with
  | letS name e =>
    simp only [Stmt.exec] at h
    split at h
    · exact absurd h (by simp)
    · simp only [Except.ok.injEq] at h
      rw [← h]
  | ifS cond target => exact absurd rfl (hni cond target)
  | inputS name =>
    simp only [Stmt.exec] at h
    split at h
    · exact absurd h (by simp)
    · split at h
      · exact absurd h (by simp)
      · simp only [Except.ok.injEq] at h
        rw [← h]
  | printS exprs =>
    simp only [Stmt.exec] at h
    split at h
    · simp only [Except.ok.injEq] at h
      rw [← h]
    · split at h
      · exact absurd h (by simp)
      · split at h
        · exact absurd h (by simp)
        · rename_i st3 hp
          simp only [Except.ok.injEq] at h
          rw [← h]
          have hh := execPrintList_ok_next_line hp
          exact hh

/-! ## Which exceptions execution can raise -/

theorem applyOp_error_not_unknown {op : Operator} {x y : Value} {ex : Exn}
    (h : applyOp op x y = .error ex) : ex.isUnknownRuntime = false := by
  cases op <;> cases x <;> cases y <;>
    simp only [applyOp] at h <;>
    first
    | (simp only [Except.error.injEq] at h; rw [← h]; rfl)
    | simp at h
    | (split at h <;>
        first
        | (simp only [Except.error.injEq] at h; rw [← h]; rfl)
        | exact absurd h (by simp))

theorem eval_error_not_unknown {e : Expr} {line : Nat}
    {ctx : List (List Char × Value)} {ex : Exn}
    (h : e.eval line ctx = .error ex) : ex.isUnknownRuntime = false := by
  induction e with
  | lit v => simp [Expr.eval] at h
  | ref name =>
    simp only [Expr.eval] at h
    split at h
    · exact absurd h (by simp)
    · simp only [Except.error.injEq] at h
      rw [← h]
      rfl
  | binop op e₁ e₂ ih₁ ih₂ =>
    simp only [Expr.eval, bind, Except.bind] at h
    split at h
    · rename_i ex' hv
      simp only [Except.error.injEq] at h
      subst h
      exact ih₁ hv
    · split at h
      · rename_i ex' hv
        simp only [Except.error.injEq] at h
        subst h
        exact ih₂ hv
      · exact applyOp_error_not_unknown h

theorem execPrintList_error_not_unknown {line : Nat} {es : List Expr}
    {st stE : Interp} {ex : Exn}
    (h : execPrintList line es st = .error (ex, stE)) :
    ex.isUnknownRuntime = false := by
  induction es generalizing st with
  | nil => simp [execPrintList] at h
  | cons e rest ih =>
    simp only [execPrintList] at h
    split at h
    · rename_i ex' hv
      simp only [Except.error.injEq, Prod.mk.injEq] at h
      rw [← h.1]
      exact eval_error_not_unknown hv
    · exact ih h

/-- `Statement.exec` never raises an `UnknownRuntimeError` (the class exists in
the source but nothing constructs it). -/
theorem exec_error_not_unknown {stmt : Stmt} {line : Nat} {st stE : Interp} {ex : Exn}
    (h : stmt.exec line st = .error (ex, stE)) : ex.isUnknownRuntime = false := by
  cases stmt with
  | letS name e =>
    simp only [Stmt.exec] at h
    split at h
    · rename_i ex' hv
      simp only [Except.error.injEq, Prod.mk.injEq] at h
      rw [← h.1]
      exact eval_error_not_unknown hv
    · exact absurd h (by simp)
  | ifS cond target =>
    simp only [Stmt.exec] at h
    split at h
    · rename_i ex' hv
      simp only [Except.error.injEq, Prod.mk.injEq] at h
      rw [← h.1]
      exact eval_error_not_unknown hv
    · split at h
      · split at h
        · simp only [Except.error.injEq, Prod.mk.injEq] at h
          rw [← h.1]
          rfl
        · exact absurd h (by simp)
      · exact absurd h (by simp)
  | inputS name =>
    simp only [Stmt.exec] at h
    split at h
    · simp only [Except.error.injEq, Prod.mk.injEq] at h
      rw [← h.1]
      rfl
    · split at h
      · simp only [Except.error.injEq, Prod.mk.injEq] at h
        rw [← h.1]
        rfl
      · exact absurd h (by simp)
  | printS exprs =>
    simp only [Stmt.exec] at h
    split at h
    · exact absurd h (by simp)
    · split at h
      · rename_i ex' hv
        simp only [Except.error.injEq, Prod.mk.injEq] at h
        rw [← h.1]
        exact eval_error_not_unknown hv
      · split at h
        · rename_i st' err hp
          simp only [Except.error.injEq] at h
          subst h
          exact execPrintList_error_not_unknown hp
        · exact absurd h (by simp)

/-- Whatever the `try`/`except` of the run loop re-raises or wraps, it is never
an `UnknownRuntimeError`. -/
theorem execCaught_error_not_unknown {stmt : Stmt} {line : Nat} {st stE : Interp}
    {ex : Exn} (h : execCaught stmt line st = .error (ex, stE)) :
    ex.isUnknownRuntime = false := by
  simp only [execCaught] at h
  split at h
  · exact absurd h (by simp)
  · rename_i e' stE' hx
    split at h
    · simp only [Except.error.injEq, Prod.mk.injEq] at h
      rw [← h.1]
      exact exec_error_not_unknown hx
    · split at h
      · simp only [Except.error.injEq, Prod.mk.injEq] at h
        rw [← h.1]
        rfl
      · simp only [Except.error.injEq, Prod.mk.injEq] at h
        rw [← h.1]
        exact exec_error_not_unknown hx

/-- The run loop never surfaces an `UnknownRuntimeError`. -/
theorem resume_error_not_unknown {fuel : Nat} {st stE : Interp} {ex : Exn}
    (h : resume fuel st = (some ex, stE)) : ex.isUnknownRuntime = false := by
  induction fuel generalizing st with
  | zero => simp [resume] at h
  | succ fuel ih =>
    simp only [resume] at h
    split at h
    · split at h
      · exact ih h
      · split at h
        · exact ih h
        · rename_i heq
          simp only [Prod.mk.injEq, Option.some.injEq] at h
          rw [← h.1]
          exact execCaught_error_not_unknown heq
    · simp at h

/-! ## Unfolding one iteration of the run loop -/

theorem resume_succ_none (fuel : Nat) (st : Interp)
    (h : st.next_line < st.statements.length)
    (hs : st.statements.get ⟨st.next_line, h⟩ = none) :
    resume (fuel + 1) st = resume fuel { st with next_line := st.next_line + 1 } := by
  simp only [resume]
  rw [dif_pos h, hs]

theorem resume_succ_some (fuel : Nat) (st : Interp) (stmt : Stmt)
    (h : st.next_line < st.statements.length)
    (hs : st.statements.get ⟨st.next_line, h⟩ = some stmt) :
    resume (fuel + 1) st =
      match execCaught stmt st.next_line { st with next_line := st.next_line + 1 } with
      | .ok st2 => resume fuel st2
      | .error (e, stE) => (some e, stE) := by
  simp only [resume]
  rw [dif_pos h, hs]

/-! ## Concrete example programs used as witnesses -/

/-- A one-line tight loop: line 0 holds `loop: if 1 goto loop`. -/
def exampleTightLoop : Interp :=
  { statements := [some (.ifS (.lit (.num 1)) ("loop".toList))],
    labels := [("loop".toList, 0)], context := [], next_line := 0,
    stdin := [], stdout := [] }

/-- Line 0 holds `let x = "a" + 1`, whose execution raises a `TypeError`. -/
def exampleMixedAdd : Interp :=
  { statements :=
      [some (.letS ("x".toList)
        (.binop .PL (.lit (.text ("a".toList))) (.lit (.num 1))))],
    labels := [], context := [], next_line := 0, stdin := [], stdout := [] }

/-- Line 0 holds `let x = y` with `y` undefined. -/
def exampleUndefinedVar : Interp :=
  { statements := [some (.letS ("x".toList) (.ref ("y".toList)))],
    labels := [], context := [], next_line := 0, stdin := [], stdout := [] }

/-- Line 0 holds `input x` and the pending input line is `abc`. -/
def exampleBadInput : Interp :=
  { statements := [some (.inputS ("x".toList))],
    labels := [], context := [], next_line := 0,
    stdin := [("abc".toList)], stdout := [] }

/-! ## Claims about the run loop -/

/-- C1: each step of the run loop, while the cursor is in range, reads the
statement at the cursor, advances the cursor to `cursor + 1` before executing,
and only then executes the statement if present; a conditional goto whose
condition evaluates non-zero (and whose label is defined) overwrites the
already-advanced cursor with the label's target line — which may equal the
triggering line — while a successful execution of any other statement kind
leaves the advanced cursor untouched. -/
theorem resume_step_advance_then_override
    (fuel : Nat) (st : Interp) (h : st.next_line < st.statements.length) :
    (st.statements.get ⟨st.next_line, h⟩ = none →
      resume (fuel + 1) st = resume fuel { st with next_line := st.next_line + 1 }) ∧
    (∀ stmt, st.statements.get ⟨st.next_line, h⟩ = some stmt →
      resume (fuel + 1) st =
        (match execCaught stmt st.next_line { st with next_line := st.next_line + 1 } with
         | .ok st2 => resume fuel st2
         | .error (e, stE) => (some e, stE)) ∧
      (∀ cond target v t, stmt = .ifS cond target →
        cond.eval st.next_line st.context = .ok v → valueNeZero v = true →
        labelGet st.labels target = some t →
        stmt.exec st.next_line { st with next_line := st.next_line + 1 } =
          .ok { st with next_line := t }) ∧
      (∀ st2, (∀ cond target, stmt ≠ .ifS cond target) →
        stmt.exec st.next_line { st with next_line := st.next_line + 1 } = .ok st2 →
        st2.next_line = st.next_line + 1)) := by
  refine ⟨fun hnone => resume_succ_none fuel st h hnone, fun stmt hs => ?_⟩
  refine ⟨resume_succ_some fuel st stmt h hs, ?_, ?_⟩
  · intro cond target v t hstmt heval hnz hlabel
    subst hstmt
    simp only [Stmt.exec]
    simp only [heval, hnz, hlabel, if_true]
  · intro st2 hni hx
    have hh := exec_ok_next_line hni hx
    exact hh

/-- C1 witness: in the tight-loop program the taken goto at line 0 overwrites
the already-advanced cursor with target line 0, the triggering line itself. -/
theorem resume_step_advance_then_override_witness :
    (Stmt.ifS (.lit (.num 1)) ("loop".toList)).exec 0
        { exampleTightLoop with next_line := 1 } =
      .ok { exampleTightLoop with next_line := 0 } :=
  (((resume_step_advance_then_override 0 exampleTightLoop (by decide)).2
      (.ifS (.lit (.num 1)) ("loop".toList)) rfl).2.1
    (.lit (.num 1)) ("loop".toList) (.num 1) 0 rfl rfl (by decide) rfl)

/-- C2: the claim says an unexpected internal fault during execution is
wrapped and surfaced as `UnknownRuntimeError`; in the code the fault of
executing `let x = "a" + 1` (a `TypeError`) propagates unwrapped — it is not a
`TinyLangRuntimeError` at all, and it is not even a `RuntimeError`, so the
run loop's handler (which wraps caught faults as `UnknownCompileError`, see
`execCaught`) does not touch it. -/
theorem unexpected_fault_not_wrapped_as_unknown_runtime :
    (resume 2 exampleMixedAdd).1 = some .typeError ∧
    Exn.isTinyLangRuntimeError .typeError = false ∧
    Exn.isUnknownRuntime .typeError = false ∧
    Exn.isRuntimeError .typeError = false :=
  ⟨rfl, rfl, rfl, rfl⟩

/-- C3: a statement whose execution raises a `TinyLangRuntimeError` halts the
run loop immediately, the error propagates unchanged, and the cursor is left
at the failing line plus one (the plain increment applied before execution). -/
theorem runtime_error_halts_with_cursor_after_failing_line
    (fuel : Nat) (st stE : Interp) (stmt : Stmt) (e : Exn)
    (h : st.next_line < st.statements.length)
    (hs : st.statements.get ⟨st.next_line, h⟩ = some stmt)
    (hx : stmt.exec st.next_line { st with next_line := st.next_line + 1 } =
      .error (e, stE))
    (hrt : e.isTinyLangRuntimeError = true) :
    resume (fuel + 1) st = (some e, stE) ∧ stE.next_line = st.next_line + 1 := by
  have hc : execCaught stmt st.next_line { st with next_line := st.next_line + 1 } =
      .error (e, stE) := by
    simp only [execCaught, hx, hrt, if_true]
  refine ⟨?_, ?_⟩
  · rw [resume_succ_some fuel st stmt h hs, hc]
  · have hh := exec_error_next_line hx
    exact hh

/-- C3 witness: `let x = y` with `y` undefined halts the loop with
`UndefinedVariable` at line 0 and leaves the cursor at line 1. -/
theorem runtime_error_halts_with_cursor_after_failing_line_witness :
    resume 1 exampleUndefinedVar =
      (some (.undefinedVariable 0 ("y".toList)),
        { exampleUndefinedVar with next_line := 1 }) ∧
    ({ exampleUndefinedVar with next_line := 1 } : Interp).next_line = 0 + 1 :=
  runtime_error_halts_with_cursor_after_failing_line 0 exampleUndefinedVar
    { exampleUndefinedVar with next_line := 1 }
    (.letS ("x".toList) (.ref ("y".toList)))
    (.undefinedVariable 0 ("y".toList)) (by decide) rfl rfl rfl

/-! ## Claims about expression evaluation -/

/-- C5 counterexample: evaluating `1 / 0` raises `ZeroDivisionError`; it does
not return any value, infinite or otherwise — Python floats raise on division
by zero instead of producing an IEEE infinity. -/
theorem div_by_zero_counterexample :
    (Expr.binop .DI (.lit (.num 1)) (.lit (.num 0))).eval 0 [] =
      .error .zeroDivisionError :=
  rfl

/-- C5 as amended: for numeric operands with zero divisor, evaluating the
division raises `ZeroDivisionError` (rather than yielding an infinity), and
that exception is not a `RuntimeError`, so the run loop's handlers never catch
it. -/
theorem div_by_zero_raises (e₁ e₂ : Expr) (line : Nat)
    (ctx : List (List Char × Value)) (x : ℚ)
    (h₁ : e₁.eval line ctx = .ok (.num x))
    (h₂ : e₂.eval line ctx = .ok (.num 0)) :
    (Expr.binop .DI e₁ e₂).eval line ctx = .error .zeroDivisionError ∧
    Exn.isRuntimeError .zeroDivisionError = false := by
  refine ⟨?_, rfl⟩
  simp [Expr.eval, bind, Except.bind, h₁, h₂, applyOp]

/-- C5 witness: the amended statement at the concrete operands `1` and `0`. -/
theorem div_by_zero_raises_witness :
    (Expr.binop .DI (.lit (.num 1)) (.lit (.num 0))).eval 7 [] =
      .error .zeroDivisionError ∧
    Exn.isRuntimeError .zeroDivisionError = false :=
  div_by_zero_raises (.lit (.num 1)) (.lit (.num 0)) 7 [] 1 rfl rfl

/-- C10: when executing a `let` or `input` statement raises a runtime error
(undefined variable during evaluation, illegal input on a failed conversion,
or any other error), the context is completely unchanged — the variable write
happens only after evaluation or conversion has succeeded. -/
theorem failed_let_or_input_leaves_context
    (stmt : Stmt) (line : Nat) (st stE : Interp) (ex : Exn)
    (hkind : (∃ n e, stmt = Stmt.letS n e) ∨ (∃ n, stmt = Stmt.inputS n))
    (hx : stmt.exec line st = .error (ex, stE)) :
    stE.context = st.context := by
  rcases hkind with ⟨n, e, rfl⟩ | ⟨n, rfl⟩
  · simp only [Stmt.exec] at hx
    split at hx
    · simp only [Except.error.injEq, Prod.mk.injEq] at hx
      rw [← hx.2]
    · exact absurd hx (by simp)
  · simp only [Stmt.exec] at hx
    split at hx
    · simp only [Except.error.injEq, Prod.mk.injEq] at hx
      rw [← hx.2]
    · split at hx
      · simp only [Except.error.injEq, Prod.mk.injEq] at hx
        rw [← hx.2]
      · exact absurd hx (by simp)

/-- C10 witness: `input x` fed the non-numeric line `abc` raises IllegalInput
and leaves the (empty) context untouched. -/
theorem failed_let_or_input_leaves_context_witness :
    ({ exampleBadInput with stdin := [] } : Interp).context =
      exampleBadInput.context :=
  failed_let_or_input_leaves_context (.inputS ("x".toList)) 0 exampleBadInput
    { exampleBadInput with stdin := [] } (.illegalInput 0)
    (Or.inr ⟨_, rfl⟩) rfl

/-! ## Characterising `strFind` (Python `str.find`) -/

theorem findSubFrom_some_le {sub l : List Char} {i p : Nat}
    (h : findSubFrom sub l i = some p) : i ≤ p := by
  induction l generalizing i with
  | nil =>
    simp only [findSubFrom] at h
    split at h
    · simp only [Option.some.injEq] at h
      omega
    · exact absurd h (by simp)
  | cons c rest ih =>
    simp only [findSubFrom] at h
    split at h
    · simp only [Option.some.injEq] at h
      omega
    · have := ih h
      omega

theorem findSubFrom_some_occurs {sub l : List Char} {i p : Nat}
    (h : findSubFrom sub l i = some p) :
    sub.isPrefixOf (l.drop (p - i)) = true := by
  induction l generalizing i with
  | nil =>
    simp only [findSubFrom] at h
    split at h
    · rename_i he
      simp only [Option.some.injEq] at h
      subst h
      simp only [Nat.sub_self, List.drop_nil]
      cases sub with
      | nil => rfl
      | cons a as => simp [List.isEmpty] at he
    · exact absurd h (by simp)
  | cons c rest ih =>
    simp only [findSubFrom] at h
    split at h
    · rename_i hpre
      simp only [Option.some.injEq] at h
      subst h
      simpa using hpre
    · have hle := findSubFrom_some_le h
      have hrec := ih h
      have hd : p - i = (p - (i + 1)) + 1 := by omega
      rw [hd, List.drop_succ_cons]
      exact hrec

theorem findSubFrom_some_min {sub l : List Char} {i p : Nat}
    (h : findSubFrom sub l i = some p) :
    ∀ j, j < p - i → sub.isPrefixOf (l.drop j) = false := by
  induction l generalizing i with
  | nil =>
    intro j hj
    simp only [findSubFrom] at h
    split at h
    · simp only [Option.some.injEq] at h
      omega
    · exact absurd h (by simp)
  | cons c rest ih =>
    intro j hj
    simp only [findSubFrom] at h
    split at h
    · simp only [Option.some.injEq] at h
      omega
    · rename_i hpre
      have hle := findSubFrom_some_le h
      cases j with
      | zero =>
        simp only [List.drop_zero]
        exact Bool.eq_false_iff.mpr hpre
      | succ j' =>
        rw [List.drop_succ_cons]
        exact ih h j' (by omega)

theorem findSubFrom_none {sub l : List Char} {i : Nat} (hsub : sub ≠ [])
    (h : findSubFrom sub l i = none) :
    ∀ j, sub.isPrefixOf (l.drop j) = false := by
  induction l generalizing i with
  | nil =>
    intro j
    simp only [List.drop_nil]
    cases sub with
    | nil => exact absurd rfl hsub
    | cons a as => rfl
  | cons c rest ih =>
    intro j
    simp only [findSubFrom] at h
    split at h
    · exact absurd h (by simp)
    · rename_i hpre
      cases j with
      | zero =>
        simp only [List.drop_zero]
        exact Bool.eq_false_iff.mpr hpre
      | succ j' =>
        rw [List.drop_succ_cons]
        exact ih h j'

theorem strFind_some_le {s sub : List Char} {start p : Nat}
    (h : strFind s sub start = some p) : start ≤ p :=
  findSubFrom_some_le h

theorem strFind_some_occurs {s sub : List Char} {start p : Nat}
    (h : strFind s sub start = some p) : occursAt s sub p = true := by
  have h1 := findSubFrom_some_occurs h
  have h2 := findSubFrom_some_le h
  rw [List.drop_drop] at h1
  rw [occursAt]
  have : start + (p - start) = p := by omega
  rw [this] at h1
  exact h1

theorem strFind_some_min {s sub : List Char} {start p : Nat}
    (h : strFind s sub start = some p) :
    ∀ j, start ≤ j → j < p → occursAt s sub j = false := by
  intro j hj1 hj2
  have h1 := findSubFrom_some_min h (j - start) (by omega)
  rw [List.drop_drop] at h1
  rw [occursAt]
  have : start + (j - start) = j := by omega
  rw [this] at h1
  exact h1

theorem strFind_none {s sub : List Char} {start : Nat} (hsub : sub ≠ [])
    (h : strFind s sub start = none) :
    ∀ j, start ≤ j → occursAt s sub j = false := by
  intro j hj
  have h1 := findSubFrom_none hsub h (j - start)
  rw [List.drop_drop] at h1
  rw [occursAt]
  have : start + (j - start) = j := by omega
  rw [this] at h1
  exact h1

theorem occursAt_lt_length {s sub : List Char} {p : Nat} (hsub : sub ≠ [])
    (h : occursAt s sub p = true) : p < s.length := by
  rw [occursAt, List.isPrefixOf_iff_prefix] at h
  have h1 := h.length_le
  rw [List.length_drop] at h1
  have h2 : 0 < sub.length := List.length_pos.2 hsub
  omega

/-! ## Claim C4: operator selection -/

theorem Operator.symbol_ne_nil (op : Operator) : op.symbol ≠ [] := by
  cases op <;> simp [Operator.symbol]

theorem findOperatorIn_sound (ops : List Operator) (s : List Char) :
    (∀ op pos, findOperatorIn ops s = some (op, pos) →
      ∃ l₁ l₂, ops = l₁ ++ op :: l₂ ∧
        (∀ op' ∈ l₁, ∀ j, occursAt s op'.symbol j = false) ∧
        occursAt s op.symbol pos = true ∧
        ∀ j < pos, occursAt s op.symbol j = false) ∧
    (findOperatorIn ops s = none →
      ∀ op ∈ ops, ∀ j, occursAt s op.symbol j = false) := by
  induction ops with
  | nil =>
    refine ⟨fun op pos h => by simp [findOperatorIn] at h, fun _ op hmem => ?_⟩
    simp at hmem
  | cons o rest ih =>
    constructor
    · intro op pos h
      simp only [findOperatorIn] at h
      cases hf : strFind s o.symbol 0 with
      | some p =>
        rw [hf] at h
        simp only [Option.some.injEq, Prod.mk.injEq] at h
        obtain ⟨rfl, rfl⟩ := h
        exact ⟨[], rest, rfl, by simp, strFind_some_occurs hf,
          fun j hj => strFind_some_min hf j (Nat.zero_le j) hj⟩
      | none =>
        rw [hf] at h
        obtain ⟨l₁, l₂, heq, h1, h2, h3⟩ := ih.1 op pos h
        refine ⟨o :: l₁, l₂, by rw [heq, List.cons_append], ?_, h2, h3⟩
        intro op' hmem j
        rcases List.mem_cons.1 hmem with rfl | hmem'
        · exact strFind_none (Operator.symbol_ne_nil op') hf j (Nat.zero_le j)
        · exact h1 op' hmem' j
    · intro h op hmem j
      simp only [findOperatorIn] at h
      cases hf : strFind s o.symbol 0 with
      | some p => rw [hf] at h; exact absurd h (by simp)
      | none =>
        rw [hf] at h
        rcases List.mem_cons.1 hmem with rfl | hmem'
        · exact strFind_none (Operator.symbol_ne_nil op) hf j (Nat.zero_le j)
        · exact ih.2 h op hmem' j

/-- C4: the operator-selection order is the fixed candidate list with longer
symbols before their shorter prefixes (`<= >= == != + - * / < >`); the first
candidate in that order occurring anywhere in the raw text is selected, at its
earliest occurrence position; when none occurs, no candidate occurs at all.
In particular a lower-priority operator occurring earlier in the text loses to
a higher-priority one occurring later. -/
theorem operator_selection_priority_then_earliest (s : List Char) :
    sortedOperators = [.LE, .GE, .EQ, .NE, .PL, .MI, .MU, .DI, .LT, .GT] ∧
    (∀ op pos, findOperator s = some (op, pos) →
      ∃ l₁ l₂, sortedOperators = l₁ ++ op :: l₂ ∧
        (∀ op' ∈ l₁, ∀ j, occursAt s op'.symbol j = false) ∧
        occursAt s op.symbol pos = true ∧
        ∀ j < pos, occursAt s op.symbol j = false) ∧
    (findOperator s = none →
      ∀ op ∈ sortedOperators, ∀ j, occursAt s op.symbol j = false) :=
  ⟨rfl, (findOperatorIn_sound sortedOperators s).1,
    (findOperatorIn_sound sortedOperators s).2⟩

/-- C4 witness: in `a+b<=c` the lower-priority `+` occurs at position 1, yet
`<=` (earlier in the candidate order) is selected, at its earliest occurrence
position 3, and no higher-priority candidate occurs anywhere. -/
theorem operator_selection_priority_then_earliest_witness :
    (∃ l₁ l₂, sortedOperators = l₁ ++ Operator.LE :: l₂ ∧
      (∀ op' ∈ l₁, ∀ j, occursAt ("a+b<=c".toList) op'.symbol j = false) ∧
      occursAt ("a+b<=c".toList) (Operator.LE).symbol 3 = true ∧
      ∀ j < 3, occursAt ("a+b<=c".toList) (Operator.LE).symbol j = false) ∧
    occursAt ("a+b<=c".toList) (Operator.PL).symbol 1 = true :=
  ⟨(operator_selection_priority_then_earliest ("a+b<=c".toList)).2.1
      .LE 3 rfl, rfl⟩

/-! ## Claim C9: quote-framed text always parses as a Text literal -/

/-- C9: when the trimmed text both starts and ends with the quote character,
`Expression.parse` returns the Text literal with all framing quotes stripped —
value parsing succeeds first, so operator and reference parsing never run,
and an input like `"a" + "b"` is a single Text constant. -/
theorem quoted_text_parses_as_text_literal (line : Nat) (s : List Char)
    (hstart : (pyStrip s).head? = some quoteCh)
    (hend : (pyStrip s).getLast? = some quoteCh) :
    Expression_parse line s = .ok (.textLit (pyStripChar quoteCh (pyStrip s))) := by
  have hv : ValueExpression_parse line s =
      .ok (.textLit (pyStripChar quoteCh (pyStrip s))) := by
    simp only [ValueExpression_parse]
    rw [if_pos ⟨hstart, hend⟩]
  simp only [Expression_parse, parseExpressionF, hv]

/-- C9 witness: `"a" + "b"` parses as the Text value `a" + "b`, not as a
concatenation of two literals. -/
theorem quoted_text_parses_as_text_literal_witness :
    Expression_parse 0 ("\"a\" + \"b\"".toList) =
      .ok (.textLit ("a\" + \"b".toList)) :=
  (quoted_text_parses_as_text_literal 0 ("\"a\" + \"b\"".toList) rfl rfl).trans rfl

/-! ## Claim C8: a blank label part -/

/-- Stripping an all-whitespace text yields the empty text. -/
theorem pyStrip_eq_nil_of_all_space {pre : List Char}
    (h : pre.all pyIsSpace = true) : pyStrip pre = [] := by
  have h1 : pre.dropWhile pyIsSpace = [] :=
    List.dropWhile_eq_nil_iff.2 (fun x hx => List.all_eq_true.1 h x hx)
  simp [pyStrip, h1]

/-- C8 counterexample: loading the line `: print` fails with a syntax error in
tli.py — the blank text before the unquoted `:` is passed to the name
validator, which rejects blank names — rather than succeeding with no label. -/
theorem blank_label_rejected_counterexample :
    parse_one_line_string 0 (": print".toList) = .error (.syntaxError 0) := rfl

/-- C8 as amended: in tli.py, a source line whose text before the first
unquoted `:` is empty or only whitespace is rejected with a
`TinyLangSyntaxError` from `check_name_legal`; no statement parsing takes
place for that line.  (The lenient behaviour the claim describes — discard the
blank label and still parse the remainder — is the older til.py variant's.) -/
theorem blank_label_rejected (line : Nat) (s pre rest : List Char)
    (hsplit : quoted_split_first s [':'] quoteCh = (some pre, rest))
    (hblank : pre.all pyIsSpace = true) :
    parse_one_line_string line s = .error (.syntaxError line) := by
  have hcheck : check_name_legal line pre = .error (.syntaxError line) := by
    simp only [check_name_legal, pyStrip_eq_nil_of_all_space hblank]
  simp only [parse_one_line_string, hsplit, hcheck, bind, Except.bind]

/-- C8 witness: the amended statement at the concrete line `  : print`. -/
theorem blank_label_rejected_witness :
    parse_one_line_string 3 ("  : print".toList) = .error (.syntaxError 3) :=
  blank_label_rejected 3 ("  : print".toList) ("  ".toList) (" print".toList)
    rfl rfl

/-! ## Claim C6: the Number-literal rule -/

/-- Modelled from the claim: the text consists of decimal digits with at most
one decimal point (hence at least one digit). -/
def digitsAtMostOneDot (s : List Char) : Bool :=
  decide (s.count '.' ≤ 1) && s.all (fun c => c.isDigit || c = '.') &&
    s.any (fun c => c.isDigit)

theorem all_digit_eq_no_dot_and_digit_or_dot (l : List Char) :
    l.all Char.isDigit =
      (decide (l.count '.' = 0) && l.all (fun c => c.isDigit || c = '.')) := by
  rw [Bool.eq_iff_iff]
  simp only [List.all_eq_true, Bool.and_eq_true, decide_eq_true_eq,
    List.count_eq_zero, Bool.or_eq_true]
  constructor
  · intro h
    refine ⟨fun hmem => ?_, fun x hx => Or.inl (h x hx)⟩
    exact absurd (h '.' hmem) (by decide)
  · rintro ⟨hnd, hall⟩ x hx
    rcases hall x hx with hd | rfl
    · exact hd
    · exact absurd hx hnd

theorem removeFirstDot_all_digit (s : List Char) :
    (removeFirstDot s).all Char.isDigit =
      (decide (s.count '.' ≤ 1) && s.all (fun c => c.isDigit || c = '.')) := by
  induction s with
  | nil => rfl
  | cons c rest ih =>
    by_cases hc : c = '.'
    · subst hc
      have h1 : removeFirstDot ('.' :: rest) = rest := by
        simp [removeFirstDot]
      rw [h1, all_digit_eq_no_dot_and_digit_or_dot rest, Bool.eq_iff_iff]
      rw [List.count_cons_self]
      simp only [Bool.and_eq_true, decide_eq_true_eq, List.all_cons,
        Bool.or_eq_true]
      constructor
      · rintro ⟨h0, hall⟩
        exact ⟨by omega, ⟨Or.inr trivial, hall⟩⟩
      · rintro ⟨hc1, _, hall⟩
        exact ⟨by omega, hall⟩
    · have h1 : removeFirstDot (c :: rest) = c :: removeFirstDot rest := by
        simp [removeFirstDot, hc]
      have h2 : List.count '.' (c :: rest) = List.count '.' rest :=
        List.count_cons_of_ne (fun h => hc h.symm) rest
      rw [h1, List.all_cons, ih, h2, Bool.eq_iff_iff]
      simp only [Bool.and_eq_true, decide_eq_true_eq, List.all_cons,
        Bool.or_eq_true]
      constructor
      · rintro ⟨hd, hc1, hall⟩
        exact ⟨hc1, Or.inl hd, hall⟩
      · rintro ⟨hc1, hd | hdot, hall⟩
        · exact ⟨hd, hc1, hall⟩
        · exact absurd hdot hc

theorem mem_of_mem_removeFirstDot {x : Char} {s : List Char}
    (h : x ∈ removeFirstDot s) : x ∈ s := by
  induction s with
  | nil => simp [removeFirstDot] at h
  | cons c rest ih =>
    by_cases hc : c = '.'
    · subst hc
      simp only [removeFirstDot, if_pos rfl] at h
      exact List.mem_cons_of_mem _ h
    · simp only [removeFirstDot, if_neg hc, List.mem_cons] at h
      rcases h with rfl | h'
      · exact List.mem_cons_self x rest
      · exact List.mem_cons_of_mem _ (ih h')

theorem mem_removeFirstDot_of_mem {x : Char} {s : List Char}
    (hx : x ∈ s) (hne : x ≠ '.') : x ∈ removeFirstDot s := by
  induction s with
  | nil => simp at hx
  | cons c rest ih =>
    by_cases hc : c = '.'
    · subst hc
      simp only [removeFirstDot, if_pos rfl]
      rcases List.mem_cons.1 hx with rfl | h'
      · exact absurd rfl hne
      · exact h'
    · simp only [removeFirstDot, if_neg hc, List.mem_cons]
      rcases List.mem_cons.1 hx with rfl | h'
      · exact Or.inl rfl
      · exact Or.inr (ih h')

/-- C6 counterexample: `1e5` is trimmed, not quote-framed, and accepted as a
Number by tli.py's literal parsing (Python `float` accepts exponent notation),
yet it is not decimal digits with at most one decimal point — so acceptance is
not "exactly" the digits-and-dot rule. -/
theorem tli_number_literal_counterexample :
    pyStrip ("1e5".toList) = ("1e5".toList) ∧
    ¬((("1e5".toList).head? = some quoteCh) ∧
      (("1e5".toList).getLast? = some quoteCh)) ∧
    ValueExpression_parse 0 ("1e5".toList) = .ok (.numLit ("1e5".toList)) ∧
    digitsAtMostOneDot ("1e5".toList) = false :=
  ⟨rfl, by decide, rfl, rfl⟩

/-- C6 as amended: the digits-with-at-most-one-decimal-point rule is the older
til.py variant's: there, a trimmed text that does not start and end with a
quote is accepted as a Number exactly when it consists of decimal digits with
at most one decimal point (and at least one digit).  In tli.py acceptance is
Python's `float` grammar instead, which also admits exponent notation, signs
and infinity/nan spellings (see the counterexample). -/
theorem til_number_literal_rule (line : Nat) (s : List Char)
    (htrim : pyStrip s = s)
    (hq : ¬((s.head? = some quoteCh) ∧ (s.getLast? = some quoteCh))) :
    (∃ raw, til_ValueExpresion_parse line s = .ok (.numLit raw)) ↔
      digitsAtMostOneDot s = true := by
  rw [til_ValueExpresion_parse]
  simp only [htrim]
  rw [if_neg hq]
  by_cases hacc : (!(removeFirstDot s).isEmpty ∧
      (removeFirstDot s).all Char.isDigit = true)
  · rw [if_pos hacc]
    constructor
    · intro _
      obtain ⟨hne, hall⟩ := hacc
      have hdd : (decide (s.count '.' ≤ 1) &&
          s.all (fun c => c.isDigit || c = '.')) = true := by
        rw [← removeFirstDot_all_digit s]
        exact hall
      simp only [Bool.and_eq_true] at hdd
      rw [digitsAtMostOneDot, hdd.1, hdd.2]
      have hanyd : s.any (fun c => c.isDigit) = true := by
        rw [Bool.not_eq_true', List.isEmpty_eq_false_iff_exists_mem] at hne
        obtain ⟨x, hx⟩ := hne
        have hxd : x.isDigit = true := List.all_eq_true.1 hall x hx
        exact List.any_eq_true.2 ⟨x, mem_of_mem_removeFirstDot hx, hxd⟩
      rw [hanyd]
      rfl
    · intro _
      exact ⟨s, rfl⟩
  · rw [if_neg hacc]
    constructor
    · intro ⟨raw, hraw⟩
      exact absurd hraw (by simp)
    · intro hdig
      exfalso
      apply hacc
      simp only [digitsAtMostOneDot, Bool.and_eq_true] at hdig
      obtain ⟨⟨hcount, hall⟩, hany⟩ := hdig
      have hall' : (removeFirstDot s).all Char.isDigit = true := by
        rw [removeFirstDot_all_digit s, hcount, hall]
        rfl
      refine ⟨?_, hall'⟩
      obtain ⟨x, hxmem, hxd⟩ := List.any_eq_true.1 hany
      have hxne : x ≠ '.' := by
        intro hxe
        rw [hxe] at hxd
        exact absurd hxd (by decide)
      have : x ∈ removeFirstDot s := mem_removeFirstDot_of_mem hxmem hxne
      rw [Bool.not_eq_true', List.isEmpty_eq_false_iff_exists_mem]
      exact ⟨x, this⟩

/-- C6 witness: the amended (til.py) rule at the concrete literal `12.5`. -/
theorem til_number_literal_rule_witness :
    ∃ raw, til_ValueExpresion_parse 0 ("12.5".toList) = .ok (.numLit raw) :=
  (til_number_literal_rule 0 ("12.5".toList) rfl (by decide)).mpr rfl

/-! ## Claim C7: `quoted_split_first` against the spec's quoted-span scan -/

theorem occursAt_singleton {s : List Char} {q : Char} {p : Nat} :
    occursAt s [q] p = true ↔ s[p]? = some q := by
  rw [occursAt, ← List.head?_drop]
  cases hd : s.drop p with
  | nil => simp [List.isPrefixOf]
  | cons b bs =>
    simp only [List.isPrefixOf, Bool.and_eq_true, List.head?_cons,
      Option.some.injEq]
    constructor
    · intro h
      exact (beq_iff_eq.1 h.1).symm
    · intro h
      exact ⟨beq_iff_eq.2 h.symm, trivial⟩

theorem not_quote_at_of_occursAt_false {s : List Char} {q : Char} {j : Nat}
    (hf : occursAt s [q] j = false) : s[j]? ≠ some q := by
  intro hc
  have ht := occursAt_singleton.2 hc
  rw [hf] at ht
  exact Bool.false_ne_true ht

/-- One scanner step at a quote character toggles the in-quote flag. -/
theorem scan_at_quote (s sep : List Char) (q : Char) (a : Nat)
    (ha : a < s.length) (hq : s[a]? = some q) (b : Bool) :
    scanPos sep q (s.drop a) a b = scanPos sep q (s.drop (a + 1)) (a + 1) (!b) := by
  rw [List.drop_eq_getElem_cons ha]
  have hc : s[a] = q := by
    rw [List.getElem?_eq_getElem ha] at hq
    exact Option.some.inj hq
  simp only [scanPos, if_pos hc]

/-- One scanner step outside quotes at a separator occurrence reports it. -/
theorem scan_at_sep (s sep : List Char) (q : Char) (a : Nat) (hsep : sep ≠ [])
    (hnq : s[a]? ≠ some q) (hocc : occursAt s sep a = true) :
    scanPos sep q (s.drop a) a false = some a := by
  have ha : a < s.length := occursAt_lt_length hsep hocc
  have hc : s[a] ≠ q := by
    intro hceq
    exact hnq (by rw [List.getElem?_eq_getElem ha, hceq])
  rw [occursAt] at hocc
  rw [List.drop_eq_getElem_cons ha] at hocc ⊢
  simp only [scanPos, if_neg hc, if_neg (Bool.false_ne_true), hocc, if_pos]

/-- The scanner walking outside quotes over a region with neither separator
occurrences nor quote characters just advances. -/
theorem scan_walk_false (s sep : List Char) (q : Char) (b : Nat) :
    ∀ a, a ≤ b →
    (∀ j, a ≤ j → j < b → occursAt s sep j = false) →
    (∀ j, a ≤ j → j < b → s[j]? ≠ some q) →
    scanPos sep q (s.drop a) a false = scanPos sep q (s.drop b) b false := by
  suffices H : ∀ n a, b - a = n → a ≤ b →
      (∀ j, a ≤ j → j < b → occursAt s sep j = false) →
      (∀ j, a ≤ j → j < b → s[j]? ≠ some q) →
      scanPos sep q (s.drop a) a false = scanPos sep q (s.drop b) b false by
    intro a hab h1 h2
    exact H (b - a) a rfl hab h1 h2
  intro n
  induction n with
  | zero =>
    intro a hba hab _ _
    have : a = b := by omega
    rw [this]
  | succ n ih =>
    intro a hba hab h1 h2
    have hab' : a < b := by omega
    by_cases ha : a < s.length
    · have hnq : s[a] ≠ q := by
        intro hc
        exact h2 a le_rfl hab' (by rw [List.getElem?_eq_getElem ha, hc])
      have hnsep : sep.isPrefixOf (s.drop a) = false := h1 a le_rfl hab'
      rw [List.drop_eq_getElem_cons ha] at hnsep
      rw [List.drop_eq_getElem_cons ha]
      simp only [scanPos, if_neg hnq, if_neg (Bool.false_ne_true), hnsep,
        Bool.false_eq_true, if_false]
      exact ih (a + 1) (by omega) (by omega)
        (fun j hj1 hj2 => h1 j (by omega) hj2)
        (fun j hj1 hj2 => h2 j (by omega) hj2)
    · have hda : s.drop a = [] := List.drop_eq_nil_of_le (by omega)
      have hdb : s.drop b = [] := List.drop_eq_nil_of_le (by omega)
      rw [hda, hdb]
      rfl

/-- The scanner walking inside a quote skips over everything that is not a
quote character. -/
theorem scan_walk_true (s sep : List Char) (q : Char) (b : Nat) :
    ∀ a, a ≤ b →
    (∀ j, a ≤ j → j < b → s[j]? ≠ some q) →
    scanPos sep q (s.drop a) a true = scanPos sep q (s.drop b) b true := by
  suffices H : ∀ n a, b - a = n → a ≤ b →
      (∀ j, a ≤ j → j < b → s[j]? ≠ some q) →
      scanPos sep q (s.drop a) a true = scanPos sep q (s.drop b) b true by
    intro a hab h2
    exact H (b - a) a rfl hab h2
  intro n
  induction n with
  | zero =>
    intro a hba hab _
    have : a = b := by omega
    rw [this]
  | succ n ih =>
    intro a hba hab h2
    have hab' : a < b := by omega
    by_cases ha : a < s.length
    · have hnq : s[a] ≠ q := by
        intro hc
        exact h2 a le_rfl hab' (by rw [List.getElem?_eq_getElem ha, hc])
      rw [List.drop_eq_getElem_cons ha]
      simp only [scanPos, if_neg hnq, if_pos rfl]
      exact ih (a + 1) (by omega) (by omega)
        (fun j hj1 hj2 => h2 j (by omega) hj2)
    · have hda : s.drop a = [] := List.drop_eq_nil_of_le (by omega)
      have hdb : s.drop b = [] := List.drop_eq_nil_of_le (by omega)
      rw [hda, hdb]
      rfl

/-- If a quote is open and no quote character follows, the scanner reports no
separator (the unterminated quote swallows the rest). -/
theorem scan_end_true (s sep : List Char) (q : Char) :
    ∀ a, (∀ j, a ≤ j → s[j]? ≠ some q) →
    scanPos sep q (s.drop a) a true = none := by
  suffices H : ∀ n a, s.length - a ≤ n → (∀ j, a ≤ j → s[j]? ≠ some q) →
      scanPos sep q (s.drop a) a true = none by
    intro a h
    exact H (s.length - a) a le_rfl h
  intro n
  induction n with
  | zero =>
    intro a hn h
    have : s.drop a = [] := List.drop_eq_nil_of_le (by omega)
    rw [this]
    rfl
  | succ n ih =>
    intro a hn h
    by_cases ha : a < s.length
    · have hnq : s[a] ≠ q := by
        intro hc
        exact h a le_rfl (by rw [List.getElem?_eq_getElem ha, hc])
      rw [List.drop_eq_getElem_cons ha]
      simp only [scanPos, if_neg hnq, if_pos rfl]
      exact ih (a + 1) (by omega) (fun j hj => h j (by omega))
    · have : s.drop a = [] := List.drop_eq_nil_of_le (by omega)
      rw [this]
      rfl

/-- When no separator occurrence remains, the scanner reports none, whatever
the quoting state does. -/
theorem scan_none_of_no_sep (s sep : List Char) (q : Char) :
    ∀ a (b : Bool), (∀ j, a ≤ j → occursAt s sep j = false) →
    scanPos sep q (s.drop a) a b = none := by
  suffices H : ∀ n a (b : Bool), s.length - a ≤ n →
      (∀ j, a ≤ j → occursAt s sep j = false) →
      scanPos sep q (s.drop a) a b = none by
    intro a b h
    exact H (s.length - a) a b le_rfl h
  intro n
  induction n with
  | zero =>
    intro a b hn h
    have : s.drop a = [] := List.drop_eq_nil_of_le (by omega)
    rw [this]
    rfl
  | succ n ih =>
    intro a b hn h
    by_cases ha : a < s.length
    · have hnsep : sep.isPrefixOf (s.drop a) = false := h a le_rfl
      rw [List.drop_eq_getElem_cons ha] at hnsep
      rw [List.drop_eq_getElem_cons ha]
      by_cases hq : s[a] = q
      · simp only [scanPos, if_pos hq]
        exact ih (a + 1) (!b) (by omega) (fun j hj => h j (by omega))
      · cases b with
        | false =>
          simp only [scanPos, if_neg hq, if_neg (Bool.false_ne_true), hnsep,
            Bool.false_eq_true, if_false]
          exact ih (a + 1) false (by omega) (fun j hj => h j (by omega))
        | true =>
          simp only [scanPos, if_neg hq, if_pos rfl]
          exact ih (a + 1) true (by omega) (fun j hj => h j (by omega))
    · have : s.drop a = [] := List.drop_eq_nil_of_le (by omega)
      rw [this]
      rfl

/-- The cursor loop of `quoted_split_first` agrees with the spec's scan,
provided the fuel covers the remaining text. -/
theorem qsfLoop_eq_scan (s sep : List Char) (q : Char) (hsep : sep ≠ []) :
    ∀ fuel cursor, s.length + 1 ≤ fuel + cursor →
    qsfLoop s sep q fuel cursor = scanPos sep q (s.drop cursor) cursor false := by
  intro fuel
  induction fuel with
  | zero =>
    intro cursor hinv
    have : s.drop cursor = [] := List.drop_eq_nil_of_le (by omega)
    rw [this]
    rfl
  | succ fuel ih =>
    intro cursor hinv
    have hqnn : ([q] : List Char) ≠ [] := by simp
    cases hsp : strFind s sep cursor with
    | none =>
      rw [show qsfLoop s sep q (fuel + 1) cursor = none from by
        simp [qsfLoop, hsp]]
      exact (scan_none_of_no_sep s sep q cursor false
        (fun j hj => strFind_none hsep hsp j hj)).symm
    | some p =>
      have hocc := strFind_some_occurs hsp
      have hple := strFind_some_le hsp
      cases hqp : strFind s [q] cursor with
      | none =>
        have hnoq : ∀ j, cursor ≤ j → s[j]? ≠ some q := fun j hj =>
          not_quote_at_of_occursAt_false (strFind_none hqnn hqp j hj)
        rw [show qsfLoop s sep q (fuel + 1) cursor = some p from by
          simp [qsfLoop, hsp, hqp]]
        rw [scan_walk_false s sep q p cursor hple
            (fun j hj1 hj2 => strFind_some_min hsp j hj1 hj2)
            (fun j hj1 _ => hnoq j hj1),
          scan_at_sep s sep q p hsep (hnoq p hple) hocc]
      | some qp =>
        have hqocc := strFind_some_occurs hqp
        have hqple := strFind_some_le hqp
        have hqget : s[qp]? = some q := occursAt_singleton.1 hqocc
        have hqlt : qp < s.length := occursAt_lt_length hqnn hqocc
        have hnoq : ∀ j, cursor ≤ j → j < qp → s[j]? ≠ some q :=
          fun j hj1 hj2 =>
            not_quote_at_of_occursAt_false (strFind_some_min hqp j hj1 hj2)
        by_cases hpq : p < qp
        · rw [show qsfLoop s sep q (fuel + 1) cursor = some p from by
            simp [qsfLoop, hsp, hqp, hpq]]
          rw [scan_walk_false s sep q p cursor hple
              (fun j hj1 hj2 => strFind_some_min hsp j hj1 hj2)
              (fun j hj1 hj2 => hnoq j hj1 (by omega)),
            scan_at_sep s sep q p hsep (hnoq p hple hpq) hocc]
        · rw [scan_walk_false s sep q qp cursor hqple
              (fun j hj1 hj2 => strFind_some_min hsp j hj1 (by omega))
              (fun j hj1 hj2 => hnoq j hj1 hj2),
            scan_at_quote s sep q qp hqlt hqget false]
          simp only [Bool.not_false]
          cases hcq : strFind s [q] (qp + 1) with
          | none =>
            rw [show qsfLoop s sep q (fuel + 1) cursor = none from by
              simp [qsfLoop, hsp, hqp, hpq, hcq]]
            exact (scan_end_true s sep q (qp + 1) (fun j hj =>
              not_quote_at_of_occursAt_false (strFind_none hqnn hcq j hj))).symm
          | some cq =>
            have hcqocc := strFind_some_occurs hcq
            have hcqle := strFind_some_le hcq
            have hcqget : s[cq]? = some q := occursAt_singleton.1 hcqocc
            have hcqlt : cq < s.length := occursAt_lt_length hqnn hcqocc
            have hnoq2 : ∀ j, qp + 1 ≤ j → j < cq → s[j]? ≠ some q :=
              fun j hj1 hj2 =>
                not_quote_at_of_occursAt_false (strFind_some_min hcq j hj1 hj2)
            rw [show qsfLoop s sep q (fuel + 1) cursor =
                qsfLoop s sep q fuel (cq + 1) from by
              simp [qsfLoop, hsp, hqp, hpq, hcq]]
            rw [scan_walk_true s sep q cq (qp + 1) hcqle
                (fun j hj1 hj2 => hnoq2 j hj1 hj2),
              scan_at_quote s sep q cq hcqlt hcqget true]
            simp only [Bool.not_true]
            exact ih (cq + 1) (by omega)

/-- C7: `quoted_split_first` behaves exactly as the spec describes
`splitFirst`: the split happens at the first separator occurrence outside any
quoted span, where a span opens at a quote character and closes at the next
one; a separator inside a closed span is skipped; after an unterminated quote
opening, no separator counts; and when no qualifying separator exists the
result is `(none, text)` with the text unchanged. -/
theorem quoted_split_first_matches_spec (s sep : List Char) (q : Char)
    (hsep : sep ≠ []) :
    quoted_split_first s sep q = splitFirstSpec s sep q := by
  rw [quoted_split_first, splitFirstSpec,
    qsfLoop_eq_scan s sep q hsep (s.length + 1) 0 (by omega), List.drop_zero]

/-- C7 witness: the spec's own unterminated-quote example,
`splitFirst('abcbc"ac,cdb', ',', '"')`, where both sides agree (and return
`(none, text)` unchanged). -/
theorem quoted_split_first_matches_spec_witness :
    quoted_split_first ("abcbc\"ac,cdb".toList) [','] '\"' =
        splitFirstSpec ("abcbc\"ac,cdb".toList) [','] '\"' ∧
    quoted_split_first ("abcbc\"ac,cdb".toList) [','] '\"' =
        (none, ("abcbc\"ac,cdb".toList)) :=
  ⟨quoted_split_first_matches_spec ("abcbc\"ac,cdb".toList) [','] '\"'
    (by decide), rfl⟩

end TLang
